import Mathlib

/-!
Verification of the libuv 1.24 Unix event-loop core (src/unix/core.c and
src/unix/linux-core.c) against its natural-language specification.

The development shallowly embeds the loop-state manipulations of the C source
as executable Lean definitions and proves the specified properties about them.
Machine integers are modelled as `Nat` with explicit reduction modulo 2^32
where 32-bit unsigned wrap-around matters.  Intrusive queues are modelled as
lists, the fd-indexed watcher table as a function or list of optional entries,
and the epoll syscall as an oracle list of wait outcomes consumed by the poll
loop.  Callbacks are recorded in an invocation trace.
-/

namespace LibuvCore

/-! ## Poll event bits (Linux values, as used by linux-core.c) -/

def POLLIN : Nat := 1
def POLLPRI : Nat := 2
def POLLOUT : Nat := 4
def POLLERR : Nat := 8
def POLLHUP : Nat := 16
def UV__POLLRDHUP : Nat := 8192

/-- The mask of events a watcher may register, from the assertion in
`uv__io_start` and `uv__io_stop`: POLLIN, POLLOUT, UV__POLLRDHUP, UV__POLLPRI. -/
def PERMITTED_EVENTS : Nat := POLLIN ||| POLLOUT ||| UV__POLLRDHUP ||| POLLPRI

/-- Modulus of 32-bit unsigned arithmetic. -/
def U32 : Nat := 4294967296

/-- All-ones 32-bit mask, used to model the C bitwise complement `~x`. -/
def U32MASK : Nat := 4294967295

/-! ## C1: backend timeout (`uv_backend_timeout`, core.c) -/

/-- Loop state as consulted by `uv_backend_timeout`.  Queues are lists whose
emptiness models `QUEUE_EMPTY`; `closing_handles` is the singly linked chain of
closing handles ([] models the NULL pointer); `timers` is the multiset of
absolute timer deadlines held by the timer heap. -/
structure BackendLoop where
  stop_flag : Nat
  active_handles : Nat
  active_reqs : Nat
  idle_handles : List Nat
  pending_queue : List Nat
  closing_handles : List Nat
  timers : List Nat
  time : Nat

/-- Minimum element of a deadline list (the root of the timer heap). -/
def minDeadline : List Nat → Option Nat
  | [] => none
  | d :: ds =>
    match minDeadline ds with
    | none => some d
    | some m => some (min d m)

/-- Modelled from the spec: `uv__next_timeout` lives in timer.c, which is not
part of this source excerpt.  Per the spec it returns the time until the
earliest timer, clamped to a non-negative milliseconds value, or -1
("infinite") if there are no timers. -/
def uv__next_timeout (l : BackendLoop) : Int :=
  match minDeadline l.timers with
  | none => -1
  | some d => Int.ofNat (d - l.time)

/-- `uv_backend_timeout` (core.c).  Returns 0 when the stop flag is set, when
there are no active handles and no active requests, when the idle-handles
queue is non-empty, when the pending queue is non-empty or when the chain of
closing handles is non-null; otherwise defers to `uv__next_timeout`. -/
def uv_backend_timeout (l : BackendLoop) : Int :=
  if l.stop_flag ≠ 0 then 0
  else if l.active_handles = 0 ∧ l.active_reqs = 0 then 0
  else if l.idle_handles ≠ [] then 0
  else if l.pending_queue ≠ [] then 0
  else if l.closing_handles ≠ [] then 0
  else uv__next_timeout l

/-! ## C2: the dispatch mask transform (`uv__io_poll`, linux-core.c) -/

/-- The transformation linux-core.c applies to the events returned by
epoll_pwait for a watcher before invoking its callback: mask with
`pevents | POLLERR | POLLHUP`, then, when the result is exactly POLLERR or
exactly POLLHUP, merge in the read/write/read-hangup/priority bits the watcher
asked for. -/
def uv__dispatch_events (revents pevents : Nat) : Nat :=
  let e := revents &&& (pevents ||| POLLERR ||| POLLHUP)
  if e = POLLERR ∨ e = POLLHUP then
    e ||| (pevents &&& (POLLIN ||| POLLOUT ||| UV__POLLRDHUP ||| POLLPRI))
  else e

/-- The delivered-mask function exactly as the claim words it: the error and
hangup promotion is applied whenever the only bits set in the masked result
are error/hangup bits (which includes the case POLLERR|POLLHUP). -/
def claimDeliveredMask (revents pevents : Nat) : Nat :=
  let e := revents &&& (pevents ||| POLLERR ||| POLLHUP)
  if e ≠ 0 ∧ e &&& (POLLERR ||| POLLHUP) = e then
    e ||| (pevents &&& (POLLIN ||| POLLOUT ||| UV__POLLRDHUP ||| POLLPRI))
  else e

/-- The delivered-mask function as amended: the promotion is applied exactly
when the masked result is POLLERR alone or POLLHUP alone; when both bits are
present together no promotion occurs. -/
def amendedDeliveredMask (revents pevents : Nat) : Nat :=
  let masked := revents &&& (pevents ||| POLLERR ||| POLLHUP)
  let promote := masked = POLLERR ∨ masked = POLLHUP
  if promote then
    masked ||| (pevents &&& (POLLIN ||| POLLOUT ||| UV__POLLRDHUP ||| POLLPRI))
  else masked

/-! ## C4: the two-phase close protocol (core.c) -/

/-- State of the close protocol: the `closing_handles` chain (head is the most
recently pushed handle, matching the LIFO push in `uv__make_close_pending`)
and the record of delivered close callbacks as pairs (handle, iteration). -/
structure CloseState where
  closing_handles : List Nat
  fired : List (Nat × Nat)
deriving DecidableEq

/-- `uv__make_close_pending` (core.c): push the handle onto the head of the
`closing_handles` chain.  `uv_close` marks the handle CLOSING, stores the
callback, runs the kind-specific close hook and then (for every kind except
signal) performs exactly this push; no callback is invoked here. -/
def uv__make_close_pending (h : Nat) (s : CloseState) : CloseState :=
  { s with closing_handles := h :: s.closing_handles }

/-- Finish-close pass over a snapshot of the chain (`uv__finish_close` applied
along `next_closing`).  Each handle has its close callback fired, tagged with
the current iteration number; a close callback may itself request closes
(`cb` gives, per handle, the handles it closes in call order), which are
pushed onto the live `closing_handles` chain, not onto the snapshot. -/
def finishCloseAll (iter : Nat) (cb : Nat → List Nat) :
    List Nat → CloseState → CloseState
  | [], s => s
  | h :: rest, s =>
    let s := { s with fired := s.fired ++ [(h, iter)] }
    let s := (cb h).foldl (fun acc x => uv__make_close_pending x acc) s
    finishCloseAll iter cb rest s

/-- `uv__run_closing_handles` (core.c): snapshot the chain head, null the
field, then finish-close every handle of the snapshot. -/
def uv__run_closing_handles (iter : Nat) (cb : Nat → List Nat)
    (s : CloseState) : CloseState :=
  finishCloseAll iter cb s.closing_handles { s with closing_handles := [] }

/-- One loop iteration as seen by the close protocol: the phases before the
closing phase (timers, pending, idle, prepare, poll, check) perform the
`uv_close` calls listed in `phaseCloses`, in order, and then the closing
phase runs. -/
def runIterationCloses (iter : Nat) (phaseCloses : List Nat)
    (cb : Nat → List Nat) (s : CloseState) : CloseState :=
  uv__run_closing_handles iter cb
    (phaseCloses.foldl (fun acc h => uv__make_close_pending h acc) s)

/-! ## C8: the loop driver (`uv_run`, core.c) -/

inductive RunMode where
  | default
  | once
  | nowait
deriving DecidableEq

/-- Abstract loop state for the driver: the stop flag plus an opaque summary
of all remaining loop data. -/
structure RunState where
  stop_flag : Nat
  rest : Nat
deriving DecidableEq

/-- The phase functions an iteration of `uv_run` invokes.  They live in other
translation units (timer.c, loop-watcher.c) or are modelled elsewhere in this
development, so the driver is proved correct for every choice of them. -/
structure LoopPhases where
  updateTime : RunState → RunState
  runTimers : RunState → RunState
  runPending : RunState → Bool × RunState
  runIdle : RunState → RunState
  runPrepare : RunState → RunState
  backendTimeout : RunState → Int
  ioPoll : Int → RunState → RunState
  runCheck : RunState → RunState
  runClosing : RunState → RunState
  alive : RunState → Bool

/-- The body of the while loop of `uv_run`: update time, run timers, drain the
pending queue, run idle and prepare handles, compute the backend timeout
(0 unless the mode is UV_RUN_DEFAULT, or UV_RUN_ONCE with no pending callback
run), poll, run check handles, run closing handles, and in UV_RUN_ONCE mode
update the time and run timers once more. -/
def uv_run_iteration (ph : LoopPhases) (mode : RunMode) (s : RunState) :
    RunState :=
  let s := ph.updateTime s
  let s := ph.runTimers s
  let p := ph.runPending s
  let ranPending := p.1
  let s := p.2
  let s := ph.runIdle s
  let s := ph.runPrepare s
  let timeout : Int :=
    if (mode = .once ∧ ranPending = false) ∨ mode = .default then
      ph.backendTimeout s
    else 0
  let s := ph.ioPoll timeout s
  let s := ph.runCheck s
  let s := ph.runClosing s
  if mode = .once then ph.runTimers (ph.updateTime s) else s

/-- The while loop of `uv_run`: iterate while the loop is alive and the stop
flag is clear; UV_RUN_ONCE and UV_RUN_NOWAIT break after one iteration.
`none` models non-termination within the supplied fuel. -/
def uv_run_loop (ph : LoopPhases) (mode : RunMode) :
    Nat → Bool → RunState → Option (Bool × RunState)
  | 0, r, s => if r = true ∧ s.stop_flag = 0 then none else some (r, s)
  | fuel + 1, r, s =>
    if r = true ∧ s.stop_flag = 0 then
      let s := uv_run_iteration ph mode s
      let r := ph.alive s
      if mode = .once ∨ mode = .nowait then some (r, s)
      else uv_run_loop ph mode fuel r s
    else some (r, s)

/-- `uv_run` (core.c): check aliveness (updating the time when the loop is
already dead), run the while loop, then clear `stop_flag` unconditionally
before returning the aliveness flag. -/
def uv_run (ph : LoopPhases) (mode : RunMode) (fuel : Nat) (s : RunState) :
    Option (Bool × RunState) :=
  let r := ph.alive s
  let s := if r = false then ph.updateTime s else s
  match uv_run_loop ph mode fuel r s with
  | none => none
  | some (r, s) =>
    some (r, if s.stop_flag ≠ 0 then { s with stop_flag := 0 } else s)

/-! ## C3 / C9: the poll algorithm (`uv__io_poll`, linux-core.c)

The epoll syscall is modelled by an oracle: a list of wait outcomes the poll
loop consumes one per `epoll_pwait` call.  Watcher identity is modelled by
file descriptor (one watcher per fd); the signal io-watcher of the loop is
the watcher stored at `signalFd`.  Callbacks are recorded in a trace of
(fd, events) pairs and do not mutate loop state in this model. -/

/-- The two event masks of an io watcher: `events` is registered with the
backend, `pevents` is desired. -/
structure PollWatcher where
  pevents : Nat
  events : Nat
deriving DecidableEq

/-- Loop state consulted by `uv__io_poll`. -/
structure PollState where
  nfds : Nat
  watcherQueue : List Nat
  watchers : Nat → Option PollWatcher
  backend : Nat → Option Nat
  time : Nat
  signalFd : Nat

/-- One outcome of an `epoll_pwait` call: the milliseconds that elapsed inside
the syscall together with a ready batch (`ready`), a zero-events timeout
(`timedOut`) or an EINTR interruption (`eintr`).  Any other failure aborts the
process.  A batch entry is (data.fd, events); fd -1 marks an entry invalidated
by `uv__platform_invalidate_fd`. -/
inductive WaitOutcome where
  | ready (elapsed : Nat) (evs : List (Int × Nat))
  | timedOut (elapsed : Nat)
  | eintr (elapsed : Nat)

/-- Kernel-bug workaround constant from linux-core.c. -/
def max_safe_timeout : Int := 1789569

/-- Flush of the watcher queue at the start of the poll phase: for each queued
watcher register `pevents` with the backend (EPOLL_CTL_ADD when `events` is 0,
else EPOLL_CTL_MOD; an EEXIST on ADD is retried as MOD, so the net effect of a
successful flush is always that the backend holds `pevents`) and set
`events := pevents`. -/
def uv__flush_watcher_queue (s : PollState) : PollState :=
  s.watcherQueue.foldl
    (fun st fd =>
      match st.watchers fd with
      | none => st
      | some w =>
        { st with
          backend := fun f => if f = fd then some w.pevents else st.backend f
          watchers := fun f =>
            if f = fd then some { w with events := w.pevents }
            else st.watchers f })
    { s with watcherQueue := [] }

/-- Accumulator of the dispatch loop over one ready batch. -/
structure DispatchAcc where
  backend : Nat → Option Nat
  trace : List (Nat × Nat)
  haveSignals : Bool
  nevents : Nat

/-- Dispatch of a single ready entry: skip invalidated entries (fd -1);
unregister stopped fds (watcher slot NULL) from the backend; otherwise mask
the returned events via `uv__dispatch_events` and, when the result is
non-zero, either defer the signal io-watcher (set `haveSignals`) or invoke
the watcher callback immediately. -/
def dispatchOne (sigFd : Nat) (watchers : Nat → Option PollWatcher)
    (acc : DispatchAcc) (pe : Int × Nat) : DispatchAcc :=
  if pe.1 = -1 then acc
  else
    let fd := pe.1.toNat
    match watchers fd with
    | none => { acc with backend := fun f => if f = fd then none else acc.backend f }
    | some w =>
      let ev := uv__dispatch_events pe.2 w.pevents
      if ev = 0 then acc
      else if fd = sigFd then
        { acc with haveSignals := true, nevents := acc.nevents + 1 }
      else
        { acc with trace := acc.trace ++ [(fd, ev)], nevents := acc.nevents + 1 }

/-- Dispatch of a whole ready batch, followed by the deferred invocation of
the signal io-watcher callback (with POLLIN) when `haveSignals` was set. -/
def dispatchBatch (sigFd : Nat) (watchers : Nat → Option PollWatcher)
    (backend : Nat → Option Nat) (evs : List (Int × Nat)) : DispatchAcc :=
  let acc := evs.foldl (dispatchOne sigFd watchers) ⟨backend, [], false, 0⟩
  if acc.haveSignals then { acc with trace := acc.trace ++ [(sigFd, POLLIN)] }
  else acc

/-- The ordinary (non-signal) callback invocations a ready batch produces, in
batch order: entries that are not invalidated, whose watcher slot is live,
whose dispatch mask is non-zero and whose watcher is not the signal
io-watcher. -/
def readyInvocations (sigFd : Nat) (watchers : Nat → Option PollWatcher) :
    List (Int × Nat) → List (Nat × Nat)
  | [] => []
  | pe :: evs =>
    let rest := readyInvocations sigFd watchers evs
    if pe.1 = -1 then rest
    else
      match watchers pe.1.toNat with
      | none => rest
      | some w =>
        if uv__dispatch_events pe.2 w.pevents ≠ 0 ∧ pe.1.toNat ≠ sigFd then
          (pe.1.toNat, uv__dispatch_events pe.2 w.pevents) :: rest
        else rest

/-- Whether a ready batch contains a dispatchable event for the signal
io-watcher (the condition under which the code sets `have_signals`). -/
def batchHasSignal (sigFd : Nat) (watchers : Nat → Option PollWatcher) :
    List (Int × Nat) → Bool
  | [] => false
  | pe :: evs =>
    let rest := batchHasSignal sigFd watchers evs
    if pe.1 = -1 then rest
    else
      match watchers pe.1.toNat with
      | none => rest
      | some w =>
        if uv__dispatch_events pe.2 w.pevents ≠ 0 ∧ pe.1.toNat = sigFd then true
        else rest

/-- The `for (;;)` wait-and-dispatch loop of `uv__io_poll`.  Per round: cap
the timeout when longs are 32 bits wide, consume one wait outcome, update the
loop time unconditionally, then either return, restart with the remaining
budget (the `update_timeout` path), or dispatch the batch.  After a dispatch
that ran the signal io-watcher the function returns without polling again;
a full batch (1024 entries) with callbacks run is re-polled with timeout 0 up
to the `count` budget of 48.  The result carries the final state, the
unconsumed oracle entries and the callback trace; `none` models an abort or
an oracle that ran out. -/
def uv__epoll_rounds (longIs32 : Bool) :
    List WaitOutcome → Int → Int → Nat → Nat → PollState →
    List (Nat × Nat) → Option (PollState × List WaitOutcome × List (Nat × Nat))
  | [], _, _, _, _, _, _ => none
  | o :: rest, timeout, realTimeout, base, count, s, trace =>
    let timeout :=
      if longIs32 = true ∧ max_safe_timeout ≤ timeout then max_safe_timeout
      else timeout
    match o with
    | .timedOut elapsed =>
      let s := { s with time := s.time + elapsed }
      if timeout = 0 then some (s, rest, trace)
      else
        let rt := realTimeout - Int.ofNat (s.time - base)
        if rt ≤ 0 then some (s, rest, trace)
        else uv__epoll_rounds longIs32 rest rt rt base count s trace
    | .eintr elapsed =>
      let s := { s with time := s.time + elapsed }
      if timeout = -1 then
        uv__epoll_rounds longIs32 rest timeout realTimeout base count s trace
      else if timeout = 0 then some (s, rest, trace)
      else
        let rt := realTimeout - Int.ofNat (s.time - base)
        if rt ≤ 0 then some (s, rest, trace)
        else uv__epoll_rounds longIs32 rest rt rt base count s trace
    | .ready elapsed evs =>
      let s := { s with time := s.time + elapsed }
      let acc := dispatchBatch s.signalFd s.watchers s.backend evs
      let s := { s with backend := acc.backend }
      let trace := trace ++ acc.trace
      if acc.haveSignals = true then some (s, rest, trace)
      else if acc.nevents ≠ 0 then
        if evs.length = 1024 ∧ count - 1 ≠ 0 then
          uv__epoll_rounds longIs32 rest 0 realTimeout base (count - 1) s trace
        else some (s, rest, trace)
      else if timeout = 0 then some (s, rest, trace)
      else if timeout = -1 then
        uv__epoll_rounds longIs32 rest timeout realTimeout base count s trace
      else
        let rt := realTimeout - Int.ofNat (s.time - base)
        if rt ≤ 0 then some (s, rest, trace)
        else uv__epoll_rounds longIs32 rest rt rt base count s trace

/-- `uv__io_poll` (linux-core.c): when the loop watches no fds, return
immediately; otherwise flush the watcher queue into the backend and enter the
wait-and-dispatch loop with `base := loop->time`, `count := 48` and
`real_timeout := timeout`. -/
def uv__io_poll (longIs32 : Bool) (s : PollState) (timeout : Int)
    (oracle : List WaitOutcome) :
    Option (PollState × List WaitOutcome × List (Nat × Nat)) :=
  if s.nfds = 0 then some (s, oracle, [])
  else
    let s := uv__flush_watcher_queue s
    uv__epoll_rounds longIs32 oracle timeout timeout s.time 48 s []

/-! ## C5 / C6 / C10: the io-watcher state machine
(`uv__io_start` / `uv__io_stop`, core.c)

The model follows one watcher and the loop fields it touches.  The watcher
table is represented by whether the slot `loop->watchers[w->fd]` holds this
watcher (`watcherInTable`); the model assumes one watcher per fd, which is
the regime the claims describe. -/

/-- The or-shift cascade of `next_power_of_two` (core.c): after it, every bit
position at or below the highest set bit of `x` is set. -/
def smear (x : Nat) : Nat :=
  let v := x ||| (x >>> 1)
  let v := v ||| (v >>> 2)
  let v := v ||| (v >>> 4)
  let v := v ||| (v >>> 8)
  v ||| (v >>> 16)

/-- `next_power_of_two` (core.c): 32-bit unsigned bit-smearing round-up
(decrement, smear, increment, all modulo 2^32). -/
def next_power_of_two (val : Nat) : Nat :=
  (smear ((val + (U32 - 1)) % U32) + 1) % U32

/-- The slot count `maybe_resize` grows the table to:
`next_power_of_two(len + 2) - 2` in 32-bit unsigned arithmetic. -/
def maybe_resize_len (len : Nat) : Nat :=
  (next_power_of_two ((len + 2) % U32) + (U32 - 2)) % U32

/-- Effect of `maybe_resize` on `loop->nwatchers`: unchanged when the request
already fits, otherwise grown to `maybe_resize_len`. -/
def maybe_resize_n (nwatchers len : Nat) : Nat :=
  if len ≤ nwatchers then nwatchers else maybe_resize_len len

/-- An io watcher: fd, desired mask `pevents`, registered mask `events` and
its membership in the two intrusive queues. -/
structure IoWatcher where
  fd : Int
  pevents : Nat
  events : Nat
  inWatcherQueue : Bool
  inPendingQueue : Bool
deriving DecidableEq

/-- The loop fields `uv__io_start` and `uv__io_stop` touch: the table size,
whether `loop->watchers[w->fd]` holds the watcher, and `nfds`. -/
structure WatcherLoop where
  nwatchers : Nat
  watcherInTable : Bool
  nfds : Nat
deriving DecidableEq

/-- `uv__io_start` (core.c): or the mask into `pevents`, resize the table to
cover `fd + 1`, and unless the mask already equals the registered `events`,
queue the watcher for flushing and claim the table slot (bumping `nfds`) if
it is free. -/
def uv__io_start (l : WatcherLoop) (w : IoWatcher) (ev : Nat) :
    WatcherLoop × IoWatcher :=
  let w := { w with pevents := w.pevents ||| ev }
  let l := { l with nwatchers := maybe_resize_n l.nwatchers (w.fd.toNat + 1) }
  if w.events = w.pevents then (l, w)
  else
    let w := if w.inWatcherQueue then w else { w with inWatcherQueue := true }
    if l.watcherInTable then (l, w)
    else ({ l with watcherInTable := true, nfds := l.nfds + 1 }, w)

/-- `uv__io_stop` (core.c): return untouched for fd -1 or an fd outside the
table (a watcher never started on this loop; the comparison casts the fd to
unsigned).  Otherwise clear the mask bits from `pevents`; if nothing remains,
dequeue the watcher, release the table slot, decrement `nfds` and zero
`events`; if bits remain, re-queue the watcher for flushing. -/
def uv__io_stop (l : WatcherLoop) (w : IoWatcher) (ev : Nat) :
    WatcherLoop × IoWatcher :=
  if w.fd = -1 then (l, w)
  else if l.nwatchers ≤ ((w.fd % (4294967296 : Int)).toNat) then (l, w)
  else
    let w := { w with pevents := w.pevents &&& (U32MASK ^^^ ev) }
    if w.pevents = 0 then
      let w := { w with inWatcherQueue := false }
      if l.watcherInTable then
        ({ l with watcherInTable := false, nfds := l.nfds - 1 },
         { w with events := 0 })
      else (l, w)
    else if w.inWatcherQueue then (l, w)
    else (l, { w with inWatcherQueue := true })

/-- A start or stop call with its event mask. -/
inductive IoOp where
  | start (mask : Nat)
  | stop (mask : Nat)

/-- Application of one watcher operation. -/
def applyIoOp (s : WatcherLoop × IoWatcher) : IoOp → WatcherLoop × IoWatcher
  | .start m => uv__io_start s.1 s.2 m
  | .stop m => uv__io_stop s.1 s.2 m

/-- Application of a sequence of watcher operations, first first. -/
def applyIoOps (s : WatcherLoop × IoWatcher) (ops : List IoOp) :
    WatcherLoop × IoWatcher :=
  ops.foldl applyIoOp s

/-- The assertions `uv__io_start` and `uv__io_stop` place on their mask: a
non-empty subset of POLLIN, POLLOUT, UV__POLLRDHUP, UV__POLLPRI. -/
def ValidIoOp : IoOp → Prop
  | .start m => m ≠ 0 ∧ m &&& PERMITTED_EVENTS = m
  | .stop m => m ≠ 0 ∧ m &&& PERMITTED_EVENTS = m

/-- The claimed invariant: `pevents == 0` exactly when the table slot is
empty, and `pevents == events` exactly when the watcher is not queued. -/
def WatcherInv (s : WatcherLoop × IoWatcher) : Prop :=
  (s.2.pevents = 0 ↔ s.1.watcherInTable = false) ∧
  (s.2.pevents = s.2.events ↔ s.2.inWatcherQueue = false)

/-- A freshly initialised watcher (`uv__io_init`) on an empty slot. -/
def IdleWatcher (s : WatcherLoop × IoWatcher) : Prop :=
  s.2.pevents = 0 ∧ s.2.events = 0 ∧ s.2.inWatcherQueue = false ∧
  s.2.inPendingQueue = false ∧ s.1.watcherInTable = false

/-- The facts preserved along every start/stop sequence, short of table
coverage: the claimed invariant, a zero registered mask (the registered mask
changes only inside the poll flush, which is not a start/stop call), a
permitted desired mask and an fd in the legal range of the `uv__io_start`
assertions. -/
def WatcherPre (s : WatcherLoop × IoWatcher) : Prop :=
  WatcherInv s ∧ s.2.events = 0 ∧
  s.2.pevents &&& PERMITTED_EVENTS = s.2.pevents ∧
  0 ≤ s.2.fd ∧ s.2.fd.toNat + 1 < 2 ^ 31

/-- The inductive invariant for start/stop sequences on a watcher started at
least once: `WatcherPre` plus table coverage of the fd. -/
def WatcherRep (s : WatcherLoop × IoWatcher) : Prop :=
  WatcherPre s ∧ s.2.fd.toNat + 1 ≤ s.1.nwatchers

/-! ## C7: the watcher table (`maybe_resize`, core.c) -/

/-- The fd-indexed watcher table: `slots` has length `nwatchers + 2`; the two
trailing slots publish the in-flight poll event buffer pointer and count
(modelled as optional values). -/
structure WatcherTable where
  nwatchers : Nat
  slots : List (Option Nat)

/-- `maybe_resize` (core.c): when `len` does not fit, save the two trailing
slots, reallocate to `next_power_of_two(len + 2) - 2` entries (plus the two
trailing ones), null every newly added slot and restore the trailing pair at
the new end. -/
def maybe_resize (t : WatcherTable) (len : Nat) : WatcherTable :=
  if len ≤ t.nwatchers then t
  else
    let fake1 := t.slots.getD t.nwatchers none
    let fake2 := t.slots.getD (t.nwatchers + 1) none
    let nw := maybe_resize_len len
    { nwatchers := nw
      slots := t.slots.take t.nwatchers ++
        List.replicate (nw - t.nwatchers) none ++ [fake1, fake2] }

/-- The least power of two greater than or equal to `v`, for `v ≥ 1`: the
specification-side description of `next_power_of_two`. -/
def least_pow2_ge (v : Nat) : Nat :=
  2 ^ Nat.size (v - 1)

/-! # Theorems -/

/-! ## Bitwise helper lemmas -/

theorem lor_eq_zero {a b : Nat} (h : a ||| b = 0) : a = 0 ∧ b = 0 := by
  constructor <;>
    (apply Nat.eq_of_testBit_eq
     intro i
     have hb := congrArg (fun x => Nat.testBit x i) h
     simp only [Nat.testBit_or, Nat.zero_testBit, Bool.or_eq_false_iff] at hb
     simp [hb.1, hb.2])

theorem lor_subset {a b P : Nat} (ha : a &&& P = a) (hb : b &&& P = b) :
    (a ||| b) &&& P = a ||| b := by
  apply Nat.eq_of_testBit_eq
  intro i
  have ha' := congrArg (fun x => Nat.testBit x i) ha
  have hb' := congrArg (fun x => Nat.testBit x i) hb
  simp only [Nat.testBit_and, Nat.testBit_or] at ha' hb' ⊢
  cases hA : a.testBit i <;> cases hB : b.testBit i <;> cases hP : P.testBit i <;>
    simp_all

theorem land_subset_left {a x P : Nat} (ha : a &&& P = a) :
    (a &&& x) &&& P = a &&& x := by
  apply Nat.eq_of_testBit_eq
  intro i
  have ha' := congrArg (fun y => Nat.testBit y i) ha
  simp only [Nat.testBit_and] at ha' ⊢
  cases hA : a.testBit i <;> cases hX : x.testBit i <;> cases hP : P.testBit i <;>
    simp_all

theorem permitted_land_complement_eq_zero {a : Nat}
    (ha : a &&& PERMITTED_EVENTS = a) : a &&& (U32MASK ^^^ a) = 0 := by
  apply Nat.eq_of_testBit_eq
  intro i
  have ha' := congrArg (fun y => Nat.testBit y i) ha
  have hmask : U32MASK = 2 ^ 32 - 1 := by norm_num [U32MASK]
  simp only [Nat.testBit_and, Nat.testBit_xor, Nat.zero_testBit] at ha' ⊢
  rw [hmask, Nat.testBit_two_pow_sub_one]
  by_cases hi : i < 32
  · simp only [decide_eq_true hi]
    cases hA : a.testBit i <;> simp
  · have hP : PERMITTED_EVENTS.testBit i = false := by
      apply Nat.testBit_lt_two_pow
      calc PERMITTED_EVENTS < 2 ^ 14 := by decide
      _ ≤ 2 ^ i := Nat.pow_le_pow_right (by norm_num) (by omega)
    rw [hP] at ha'
    simp only [Bool.and_false] at ha'
    simp [← ha', decide_eq_false hi]

/-! ## The bit-smearing round-up (`next_power_of_two`) -/

theorem stage_step {x n : Nat} {y : Nat}
    (hy : ∀ i, y.testBit i = true ↔ ∃ o, o < n ∧ x.testBit (i + o) = true) :
    ∀ i, (y ||| y >>> n).testBit i = true ↔
      ∃ o, o < 2 * n ∧ x.testBit (i + o) = true := by
  intro i
  simp only [Nat.testBit_or, Nat.testBit_shiftRight, Bool.or_eq_true]
  rw [hy i, hy (n + i)]
  constructor
  · rintro (⟨o, ho, h⟩ | ⟨o, ho, h⟩)
    · exact ⟨o, by omega, h⟩
    · exact ⟨n + o, by omega, by rwa [show i + (n + o) = n + i + o by omega]⟩
  · rintro ⟨o, ho, h⟩
    by_cases hlt : o < n
    · exact Or.inl ⟨o, hlt, h⟩
    · exact Or.inr ⟨o - n, by omega, by rwa [show n + i + (o - n) = i + o by omega]⟩

theorem smear_testBit (x : Nat) (i : Nat) :
    (smear x).testBit i = true ↔ ∃ o, o < 32 ∧ x.testBit (i + o) = true := by
  have h0 : ∀ j, x.testBit j = true ↔ ∃ o, o < 1 ∧ x.testBit (j + o) = true := by
    intro j
    constructor
    · intro h; exact ⟨0, by omega, by simpa using h⟩
    · rintro ⟨o, ho, h⟩
      have hz : o = 0 := by omega
      rw [hz] at h
      simpa using h
  have h1 : ∀ j, (x ||| x >>> 1).testBit j = true ↔
      ∃ o, o < 2 ∧ x.testBit (j + o) = true := by
    intro j
    have := stage_step (n := 1) h0 j
    simpa using this
  have h2 : ∀ j, ((x ||| x >>> 1) ||| (x ||| x >>> 1) >>> 2).testBit j = true ↔
      ∃ o, o < 4 ∧ x.testBit (j + o) = true := by
    intro j
    have := stage_step (n := 2) h1 j
    simpa using this
  have h4 : ∀ j, (((x ||| x >>> 1) ||| (x ||| x >>> 1) >>> 2) |||
      ((x ||| x >>> 1) ||| (x ||| x >>> 1) >>> 2) >>> 4).testBit j = true ↔
      ∃ o, o < 8 ∧ x.testBit (j + o) = true := by
    intro j
    have := stage_step (n := 4) h2 j
    simpa using this
  have h8 : ∀ j, ((((x ||| x >>> 1) ||| (x ||| x >>> 1) >>> 2) |||
      ((x ||| x >>> 1) ||| (x ||| x >>> 1) >>> 2) >>> 4) |||
      (((x ||| x >>> 1) ||| (x ||| x >>> 1) >>> 2) |||
      ((x ||| x >>> 1) ||| (x ||| x >>> 1) >>> 2) >>> 4) >>> 8).testBit j = true ↔
      ∃ o, o < 16 ∧ x.testBit (j + o) = true := by
    intro j
    have := stage_step (n := 8) h4 j
    simpa using this
  have h16 := stage_step (n := 16) h8 i
  constructor
  · intro h
    obtain ⟨o, ho, hb⟩ := h16.mp h
    exact ⟨o, by omega, hb⟩
  · rintro ⟨o, ho, hb⟩
    exact h16.mpr ⟨o, by omega, hb⟩

theorem testBit_msb {x : Nat} (hx : x ≠ 0) :
    x.testBit (Nat.size x - 1) = true := by
  have hs1 : 1 ≤ Nat.size x := by
    rcases Nat.eq_zero_or_pos (Nat.size x) with h | h
    · exact absurd (Nat.size_eq_zero.mp h) hx
    · exact h
  have hlow : 2 ^ (Nat.size x - 1) ≤ x := by
    by_contra hcon
    push_neg at hcon
    have := Nat.size_le.mpr hcon
    omega
  have hhigh : x < 2 ^ Nat.size x := Nat.lt_size_self x
  have hpos : 0 < 2 ^ (Nat.size x - 1) := Nat.pos_pow_of_pos _ (by norm_num)
  have hdiv : x / 2 ^ (Nat.size x - 1) = 1 := by
    have hl : 1 ≤ x / 2 ^ (Nat.size x - 1) := by
      rw [Nat.le_div_iff_mul_le hpos]
      omega
    have hup : x / 2 ^ (Nat.size x - 1) < 2 := by
      rw [Nat.div_lt_iff_lt_mul hpos]
      have hpow : 2 ^ Nat.size x = 2 ^ (Nat.size x - 1) * 2 := by
        rw [← Nat.pow_succ]
        congr 1
        omega
      omega
    omega
  rw [Nat.testBit_to_div_mod, hdiv]
  rfl

theorem smear_eq_pow_size_sub_one {x : Nat} (hx : x < 2 ^ 32) :
    smear x = 2 ^ Nat.size x - 1 := by
  apply Nat.eq_of_testBit_eq
  intro i
  rw [Nat.testBit_two_pow_sub_one]
  by_cases hi : i < Nat.size x
  · have hxne : x ≠ 0 := by
      intro h
      rw [h] at hi
      simp [Nat.size_zero] at hi
    have hsz32 : Nat.size x ≤ 32 := Nat.size_le.mpr hx
    have hbit : (smear x).testBit i = true := by
      apply (smear_testBit x i).mpr
      refine ⟨Nat.size x - 1 - i, by omega, ?_⟩
      rw [show i + (Nat.size x - 1 - i) = Nat.size x - 1 by omega]
      exact testBit_msb hxne
    rw [hbit, decide_eq_true hi]
  · have hbit : (smear x).testBit i = false := by
      cases hb : (smear x).testBit i with
      | false => rfl
      | true =>
        obtain ⟨o, _, hbo⟩ := (smear_testBit x i).mp hb
        have hlt : x < 2 ^ (i + o) := by
          calc x < 2 ^ Nat.size x := Nat.lt_size_self x
          _ ≤ 2 ^ (i + o) := Nat.pow_le_pow_right (by norm_num) (by omega)
        rw [Nat.testBit_lt_two_pow hlt] at hbo
        exact absurd hbo (by simp)
    rw [hbit, decide_eq_false hi]

theorem npot_eq_least {v : Nat} (h1 : 1 ≤ v) (h2 : v ≤ 2 ^ 31) :
    next_power_of_two v = least_pow2_ge v := by
  unfold next_power_of_two least_pow2_ge
  have hu : U32 = 4294967296 := rfl
  have hv1 : (v + (U32 - 1)) % U32 = v - 1 := by
    have hsplit : v + (U32 - 1) = (v - 1) + U32 := by
      rw [hu]
      omega
    rw [hsplit, Nat.add_mod_right]
    apply Nat.mod_eq_of_lt
    rw [hu]
    omega
  rw [hv1]
  have hsz : Nat.size (v - 1) ≤ 31 := Nat.size_le.mpr (by omega : v - 1 < 2 ^ 31)
  have hlt32 : v - 1 < 2 ^ 32 := by omega
  rw [smear_eq_pow_size_sub_one hlt32]
  have hpos : 0 < 2 ^ Nat.size (v - 1) := Nat.pos_pow_of_pos _ (by norm_num)
  rw [show 2 ^ Nat.size (v - 1) - 1 + 1 = 2 ^ Nat.size (v - 1) by omega]
  apply Nat.mod_eq_of_lt
  have : 2 ^ Nat.size (v - 1) ≤ 2 ^ 31 := Nat.pow_le_pow_right (by norm_num) hsz
  rw [hu]
  omega

theorem least_pow2_ge_le {v : Nat} : v ≤ least_pow2_ge v := by
  unfold least_pow2_ge
  have := Nat.lt_size_self (v - 1)
  omega

theorem least_pow2_ge_min {v k : Nat} (h1 : 1 ≤ v) (hk : v ≤ 2 ^ k) :
    least_pow2_ge v ≤ 2 ^ k := by
  unfold least_pow2_ge
  exact Nat.pow_le_pow_right (by norm_num) (Nat.size_le.mpr (by omega))

theorem least_pow2_ge_is_pow2 (v : Nat) : ∃ k, least_pow2_ge v = 2 ^ k :=
  ⟨Nat.size (v - 1), rfl⟩

theorem le_maybe_resize_len {len : Nat} (h1 : 1 ≤ len)
    (h2 : len + 2 ≤ 2 ^ 31 + 1) : len ≤ maybe_resize_len len := by
  unfold maybe_resize_len
  have hu : U32 = 4294967296 := rfl
  by_cases hc : len + 2 ≤ 2 ^ 31
  · have hmod : (len + 2) % U32 = len + 2 := by
      apply Nat.mod_eq_of_lt
      rw [hu]
      omega
    rw [hmod, npot_eq_least (by omega) hc]
    have hle : len + 2 ≤ least_pow2_ge (len + 2) := least_pow2_ge_le
    have hub : least_pow2_ge (len + 2) ≤ 2 ^ 31 := least_pow2_ge_min (by omega) hc
    have hsplit : least_pow2_ge (len + 2) + (U32 - 2) =
        (least_pow2_ge (len + 2) - 2) + U32 := by
      rw [hu]
      omega
    rw [hsplit, Nat.add_mod_right, Nat.mod_eq_of_lt (by rw [hu]; omega)]
    omega
  · have hlen : len + 2 = 2 ^ 31 + 1 := by omega
    have hval : (2 : Nat) ^ 31 + 1 = 2147483649 := by norm_num
    have hmod : (len + 2) % U32 = 2147483649 := by
      rw [hlen, hval]
      apply Nat.mod_eq_of_lt
      rw [hu]
      omega
    rw [hmod]
    have hnp : next_power_of_two 2147483649 = 0 := by decide
    rw [hnp, hu]
    omega

theorem le_maybe_resize_n {n len : Nat} (h1 : 1 ≤ len)
    (h2 : len + 2 ≤ 2 ^ 31 + 1) : len ≤ maybe_resize_n n len := by
  unfold maybe_resize_n
  split_ifs with h
  · omega
  · exact le_maybe_resize_len h1 h2

theorem maybe_resize_len_eq {len : Nat} (h1 : 1 ≤ len)
    (h2 : len + 2 ≤ 2 ^ 31) :
    maybe_resize_len len = least_pow2_ge (len + 2) - 2 := by
  unfold maybe_resize_len
  have hu : U32 = 4294967296 := rfl
  have hmod : (len + 2) % U32 = len + 2 := by
    apply Nat.mod_eq_of_lt
    rw [hu]
    omega
  rw [hmod, npot_eq_least (by omega) h2]
  have hle : len + 2 ≤ least_pow2_ge (len + 2) := least_pow2_ge_le
  have hub : least_pow2_ge (len + 2) ≤ 2 ^ 31 := least_pow2_ge_min (by omega) h2
  have hsplit : least_pow2_ge (len + 2) + (U32 - 2) =
      (least_pow2_ge (len + 2) - 2) + U32 := by
    rw [hu]
    omega
  rw [hsplit, Nat.add_mod_right]
  exact Nat.mod_eq_of_lt (by rw [hu]; omega)

theorem getD_irrel {α : Type} {l : List α} {i : Nat} (h : i < l.length)
    (d1 d2 : α) : l.getD i d1 = l.getD i d2 := by
  rw [List.getD_eq_getElem?_getD, List.getD_eq_getElem?_getD,
    List.getElem?_eq_getElem h]
  rfl

/-! ## Helper lemmas about the close protocol -/

theorem fired_foldl_make_close_pending (xs : List Nat) (s : CloseState) :
    (xs.foldl (fun acc x => uv__make_close_pending x acc) s).fired = s.fired := by
  induction xs generalizing s with
  | nil => rfl
  | cons x xs ih => simpa [uv__make_close_pending] using ih _

theorem finishCloseAll_fired (iter : Nat) (cb : Nat → List Nat)
    (l : List Nat) (s : CloseState) :
    (finishCloseAll iter cb l s).fired = s.fired ++ l.map (fun h => (h, iter)) := by
  induction l generalizing s with
  | nil => simp [finishCloseAll]
  | cons h rest ih =>
    simp [finishCloseAll, ih, fired_foldl_make_close_pending]

/-! ## C1 -/

theorem minDeadline_of_ne_nil (l : List Nat) (h : l ≠ []) :
    ∃ d, minDeadline l = some d := by
  cases l with
  | nil => exact absurd rfl h
  | cons d ds =>
    cases hm : minDeadline ds with
    | none => exact ⟨d, by simp [minDeadline, hm]⟩
    | some m => exact ⟨min d m, by simp [minDeadline, hm]⟩

/-- C1: `uv_backend_timeout` returns 0 when the stop flag is set, when there
are no active handles and no active requests, when idle handles exist, when
the pending queue is non-empty or when closing handles exist; otherwise it
returns the (non-negative) time until the earliest timer deadline, or -1
(infinite) when there are no timers. -/
theorem backend_timeout_spec (l : BackendLoop) :
    ((l.stop_flag ≠ 0 ∨ (l.active_handles = 0 ∧ l.active_reqs = 0) ∨
        l.idle_handles ≠ [] ∨ l.pending_queue ≠ [] ∨ l.closing_handles ≠ []) →
      uv_backend_timeout l = 0) ∧
    ((l.stop_flag = 0 ∧ ¬(l.active_handles = 0 ∧ l.active_reqs = 0) ∧
        l.idle_handles = [] ∧ l.pending_queue = [] ∧ l.closing_handles = []) →
      uv_backend_timeout l = uv__next_timeout l ∧
      (l.timers = [] → uv_backend_timeout l = -1) ∧
      (l.timers ≠ [] → ∃ d, minDeadline l.timers = some d ∧
        uv_backend_timeout l = Int.ofNat (d - l.time) ∧
        0 ≤ uv_backend_timeout l)) := by
  constructor
  · intro h
    unfold uv_backend_timeout
    split_ifs with h1 h2 h3 h4 h5 <;> first | rfl | tauto
  · rintro ⟨h1, h2, h3, h4, h5⟩
    have he : uv_backend_timeout l = uv__next_timeout l := by
      unfold uv_backend_timeout
      split_ifs <;> first | rfl | tauto
    refine ⟨he, ?_, ?_⟩
    · intro ht
      rw [he]
      unfold uv__next_timeout
      rw [ht]
      rfl
    · intro ht
      obtain ⟨d, hd⟩ := minDeadline_of_ne_nil l.timers ht
      refine ⟨d, hd, ?_, ?_⟩
      · rw [he]; simp [uv__next_timeout, hd]
      · rw [he]
        simp only [uv__next_timeout, hd]
        exact Int.ofNat_nonneg _

/-- C1 witness: a loop whose stop flag is set gets a zero backend timeout, and
a stopped-flag-clear, active loop with a timer 7 ms away gets 7. -/
theorem backend_timeout_spec_witness :
    uv_backend_timeout ⟨1, 0, 0, [], [], [], [], 0⟩ = 0 ∧
    uv_backend_timeout ⟨0, 1, 0, [], [], [], [17], 10⟩ = 7 := by
  constructor
  · exact (backend_timeout_spec ⟨1, 0, 0, [], [], [], [], 0⟩).1 (Or.inl (by decide))
  · have h := (backend_timeout_spec ⟨0, 1, 0, [], [], [], [17], 10⟩).2
      (by refine ⟨rfl, ?_, rfl, rfl, rfl⟩; simp)
    obtain ⟨d, hd, hv, _⟩ := h.2.2 (by simp)
    have hd7 : d = 17 := by
      have : minDeadline [17] = some 17 := rfl
      rw [this] at hd
      exact (Option.some_inj.mp hd).symm
    rw [hv, hd7]
    rfl

/-! ## C2 -/

/-- C2 counterexample: when epoll returns POLLERR|POLLHUP together (mask 24)
for a watcher with `pevents = POLLIN`, the only bits set in the masked result
are error/hangup bits, yet the code does not merge in the pending read bit:
it delivers 24 where the claim requires 25. -/
theorem dispatch_mask_counterexample :
    uv__dispatch_events (POLLERR ||| POLLHUP) POLLIN = 24 ∧
    claimDeliveredMask (POLLERR ||| POLLHUP) POLLIN = 25 ∧
    uv__dispatch_events (POLLERR ||| POLLHUP) POLLIN ≠
      claimDeliveredMask (POLLERR ||| POLLHUP) POLLIN := by
  decide

/-- C2 amended: the mask delivered to a watcher callback is the returned
events masked with `pevents | POLLERR | POLLHUP`, and the pending
read/write/read-hangup/priority bits are merged in exactly when the masked
result is POLLERR alone or POLLHUP alone (not when both are present). -/
theorem dispatch_mask_amended (r M : Nat) :
    uv__dispatch_events r M = amendedDeliveredMask r M := rfl

/-! ## C4 -/

/-- C4 counterexample: a handle closed during the phases of iteration 1
(before the closing phase) has its close callback delivered by the closing
phase of that same iteration 1, not a later one. -/
theorem close_cb_same_iteration_counterexample :
    (runIterationCloses 1 [7] (fun _ => []) ⟨[], []⟩).fired = [(7, 1)] := by
  decide

/-- C4 amended: `uv_close` never fires the close callback synchronously (the
push onto `closing_handles` leaves the fired record untouched), and the
closing phase of iteration `iter` fires exactly the handles that were on
`closing_handles` when the phase began, in chain order, all tagged with
`iter`.  Hence a close requested before the closing phase of an iteration is
delivered by that same closing phase, while a close requested from within a
close callback (after the phase snapshotted and nulled the chain) is left on
`closing_handles` for a later iteration. -/
theorem close_cb_delivery_amended (iter : Nat) (cb : Nat → List Nat)
    (s : CloseState) (h : Nat) :
    (uv__make_close_pending h s).fired = s.fired ∧
    (uv__run_closing_handles iter cb s).fired =
      s.fired ++ s.closing_handles.map (fun h0 => (h0, iter)) := by
  refine ⟨rfl, ?_⟩
  unfold uv__run_closing_handles
  rw [finishCloseAll_fired]

/-! ## C3 helper lemmas: the dispatch loop -/

theorem dispatch_foldl_spec (sigFd : Nat) (watchers : Nat → Option PollWatcher)
    (evs : List (Int × Nat)) : ∀ acc : DispatchAcc,
    (evs.foldl (dispatchOne sigFd watchers) acc).trace =
      acc.trace ++ readyInvocations sigFd watchers evs ∧
    (evs.foldl (dispatchOne sigFd watchers) acc).haveSignals =
      (acc.haveSignals || batchHasSignal sigFd watchers evs) := by
  induction evs with
  | nil =>
    intro acc
    simp [readyInvocations, batchHasSignal]
  | cons pe evs ih =>
    intro acc
    rcases pe with ⟨fd0, rev⟩
    rw [List.foldl_cons]
    by_cases hinv : fd0 = -1
    · have hstep : dispatchOne sigFd watchers acc (fd0, rev) = acc := by
        unfold dispatchOne
        rw [if_pos hinv]
      have hri : readyInvocations sigFd watchers ((fd0, rev) :: evs) =
          readyInvocations sigFd watchers evs := by
        simp only [readyInvocations]
        rw [if_pos hinv]
      have hbs : batchHasSignal sigFd watchers ((fd0, rev) :: evs) =
          batchHasSignal sigFd watchers evs := by
        simp only [batchHasSignal]
        rw [if_pos hinv]
      rw [hstep, hri, hbs]
      exact ih acc
    · cases hw : watchers fd0.toNat with
      | none =>
        have hstep : dispatchOne sigFd watchers acc (fd0, rev) =
            { acc with backend := fun f =>
                if f = fd0.toNat then none else acc.backend f } := by
          unfold dispatchOne
          rw [if_neg hinv]
          simp only [hw]
        have hri : readyInvocations sigFd watchers ((fd0, rev) :: evs) =
            readyInvocations sigFd watchers evs := by
          simp only [readyInvocations]
          rw [if_neg hinv]
          simp only [hw]
        have hbs : batchHasSignal sigFd watchers ((fd0, rev) :: evs) =
            batchHasSignal sigFd watchers evs := by
          simp only [batchHasSignal]
          rw [if_neg hinv]
          simp only [hw]
        rw [hstep, hri, hbs]
        exact ih _
      | some w =>
        by_cases hev : uv__dispatch_events rev w.pevents = 0
        · have hstep : dispatchOne sigFd watchers acc (fd0, rev) = acc := by
            unfold dispatchOne
            rw [if_neg hinv]
            simp only [hw]
            rw [if_pos hev]
          have hri : readyInvocations sigFd watchers ((fd0, rev) :: evs) =
              readyInvocations sigFd watchers evs := by
            simp only [readyInvocations]
            rw [if_neg hinv]
            simp only [hw]
            rw [if_neg (by simp [hev])]
          have hbs : batchHasSignal sigFd watchers ((fd0, rev) :: evs) =
              batchHasSignal sigFd watchers evs := by
            simp only [batchHasSignal]
            rw [if_neg hinv]
            simp only [hw]
            rw [if_neg (by simp [hev])]
          rw [hstep, hri, hbs]
          exact ih acc
        · by_cases hsg : fd0.toNat = sigFd
          · have hstep : dispatchOne sigFd watchers acc (fd0, rev) =
                { acc with haveSignals := true, nevents := acc.nevents + 1 } := by
              unfold dispatchOne
              rw [if_neg hinv]
              simp only [hw]
              rw [if_neg hev, if_pos hsg]
            have hri : readyInvocations sigFd watchers ((fd0, rev) :: evs) =
                readyInvocations sigFd watchers evs := by
              simp only [readyInvocations]
              rw [if_neg hinv]
              simp only [hw]
              rw [if_neg (by simp [hsg])]
            have hbs : batchHasSignal sigFd watchers ((fd0, rev) :: evs) = true := by
              simp only [batchHasSignal]
              rw [if_neg hinv]
              simp only [hw]
              rw [if_pos ⟨hev, hsg⟩]
            rw [hstep, hri, hbs]
            have h1 := ih { acc with haveSignals := true, nevents := acc.nevents + 1 }
            refine ⟨h1.1, ?_⟩
            rw [h1.2]
            simp
          · have hstep : dispatchOne sigFd watchers acc (fd0, rev) =
                { acc with
                  trace := acc.trace ++
                    [(fd0.toNat, uv__dispatch_events rev w.pevents)]
                  nevents := acc.nevents + 1 } := by
              unfold dispatchOne
              rw [if_neg hinv]
              simp only [hw]
              rw [if_neg hev, if_neg hsg]
            have hri : readyInvocations sigFd watchers ((fd0, rev) :: evs) =
                (fd0.toNat, uv__dispatch_events rev w.pevents) ::
                  readyInvocations sigFd watchers evs := by
              simp only [readyInvocations]
              rw [if_neg hinv]
              simp only [hw]
              rw [if_pos ⟨hev, hsg⟩]
            have hbs : batchHasSignal sigFd watchers ((fd0, rev) :: evs) =
                batchHasSignal sigFd watchers evs := by
              simp only [batchHasSignal]
              rw [if_neg hinv]
              simp only [hw]
              rw [if_neg (by simp [hsg])]
            rw [hstep, hri, hbs]
            have h1 := ih { acc with
              trace := acc.trace ++
                [(fd0.toNat, uv__dispatch_events rev w.pevents)]
              nevents := acc.nevents + 1 }
            refine ⟨?_, h1.2⟩
            rw [h1.1]
            simp

theorem dispatchBatch_spec (sigFd : Nat) (watchers : Nat → Option PollWatcher)
    (backend : Nat → Option Nat) (evs : List (Int × Nat)) :
    (dispatchBatch sigFd watchers backend evs).haveSignals =
      batchHasSignal sigFd watchers evs ∧
    (dispatchBatch sigFd watchers backend evs).trace =
      readyInvocations sigFd watchers evs ++
        (if batchHasSignal sigFd watchers evs then [(sigFd, POLLIN)] else []) := by
  unfold dispatchBatch
  have h := dispatch_foldl_spec sigFd watchers evs ⟨backend, [], false, 0⟩
  rcases h with ⟨ht, hs⟩
  simp only at ht hs
  rw [Bool.false_or] at hs
  cases hb : batchHasSignal sigFd watchers evs with
  | false =>
    rw [hb] at hs
    simp [hs, ht, hb]
  | true =>
    rw [hb] at hs
    simp [hs, ht, hb]

theorem readyInvocations_ne_signal (sigFd : Nat)
    (watchers : Nat → Option PollWatcher) (evs : List (Int × Nat)) :
    ∀ p ∈ readyInvocations sigFd watchers evs, p.1 ≠ sigFd := by
  induction evs with
  | nil => intro p hp; exact absurd hp (by simp [readyInvocations])
  | cons pe evs ih =>
    intro p hp
    simp only [readyInvocations] at hp
    by_cases hinv : pe.1 = -1
    · rw [if_pos hinv] at hp
      exact ih p hp
    · rw [if_neg hinv] at hp
      cases hw : watchers pe.1.toNat with
      | none =>
        simp only [hw] at hp
        exact ih p hp
      | some w =>
        simp only [hw] at hp
        by_cases hc : uv__dispatch_events pe.2 w.pevents ≠ 0 ∧ pe.1.toNat ≠ sigFd
        · rw [if_pos hc] at hp
          rcases List.mem_cons.mp hp with h | h
          · rw [h]; exact hc.2
          · exact ih p h
        · rw [if_neg hc] at hp
          exact ih p hp

/-- C3: when a ready batch contains dispatchable events for ordinary watchers
and for the signal io-watcher of the loop, the poll round invokes every
ordinary callback first (in batch order), invokes the signal io-watcher
callback exactly once after the dispatch loop (none of the ordinary
invocations is the signal watcher), and then returns without consuming any
further wait outcome. -/
theorem poll_signal_watcher_runs_last (longIs32 : Bool) (elapsed : Nat)
    (evs : List (Int × Nat)) (rest : List WaitOutcome)
    (timeout realTimeout : Int) (base count : Nat) (s : PollState)
    (tr : List (Nat × Nat))
    (hsig : batchHasSignal s.signalFd s.watchers evs = true)
    (_hord : readyInvocations s.signalFd s.watchers evs ≠ []) :
    ∃ s2, uv__epoll_rounds longIs32 (WaitOutcome.ready elapsed evs :: rest)
        timeout realTimeout base count s tr =
      some (s2, rest,
        (tr ++ readyInvocations s.signalFd s.watchers evs) ++
          [(s.signalFd, POLLIN)]) ∧
      (∀ p ∈ readyInvocations s.signalFd s.watchers evs, p.1 ≠ s.signalFd) := by
  have hd := dispatchBatch_spec s.signalFd s.watchers s.backend evs
  refine ⟨{ s with
      time := s.time + elapsed
      backend := (dispatchBatch s.signalFd s.watchers s.backend evs).backend },
    ?_, readyInvocations_ne_signal s.signalFd s.watchers evs⟩
  unfold uv__epoll_rounds
  simp only
  rw [if_pos (by rw [hd.1]; exact hsig)]
  rw [hd.2, hsig]
  simp

/-- C3 witness: a batch with a data watcher on fd 0 and the signal io-watcher
on fd 3 runs the data callback first, the signal callback last, and returns
with the rest of the oracle unconsumed. -/
theorem poll_signal_watcher_runs_last_witness :
    ∃ s2, uv__epoll_rounds false
        [WaitOutcome.ready 5 [((0 : Int), 1), ((3 : Int), 1)]]
        (-1) (-1) 100 48
        ⟨2, [], fun fd => if fd = 0 then some ⟨1, 1⟩ else
            if fd = 3 then some ⟨1, 1⟩ else none,
          fun _ => none, 100, 3⟩ [] =
      some (s2, [],
        ([] ++ readyInvocations 3
          (fun fd => if fd = 0 then some ⟨1, 1⟩ else
            if fd = 3 then some ⟨1, 1⟩ else none)
          [((0 : Int), 1), ((3 : Int), 1)]) ++ [(3, POLLIN)]) ∧
      (∀ p ∈ readyInvocations 3
          (fun fd => if fd = 0 then some ⟨1, 1⟩ else
            if fd = 3 then some ⟨1, 1⟩ else none)
          [((0 : Int), 1), ((3 : Int), 1)], p.1 ≠ 3) :=
  poll_signal_watcher_runs_last false 5 [((0 : Int), 1), ((3 : Int), 1)] []
    (-1) (-1) 100 48
    ⟨2, [], fun fd => if fd = 0 then some ⟨1, 1⟩ else
        if fd = 3 then some ⟨1, 1⟩ else none,
      fun _ => none, 100, 3⟩ [] (by decide) (by decide)

/-! ## C5 / C6 helper lemmas: the watcher state machine -/

theorem uv__io_start_rep {l : WatcherLoop} {w : IoWatcher} {m : Nat}
    (hpre : WatcherPre (l, w)) (hm : m ≠ 0 ∧ m &&& PERMITTED_EVENTS = m) :
    WatcherRep (uv__io_start l w m) := by
  obtain ⟨⟨hinv1, hinv2⟩, hev, hsub, hfd0, hfd1⟩ := hpre
  simp only at hinv1 hinv2 hev hsub hfd0 hfd1
  have hpne : w.pevents ||| m ≠ 0 := by
    intro h
    exact hm.1 (lor_eq_zero h).2
  have hsub' : (w.pevents ||| m) &&& PERMITTED_EVENTS = w.pevents ||| m :=
    lor_subset hsub hm.2
  have hnw : w.fd.toNat + 1 ≤ maybe_resize_n l.nwatchers (w.fd.toNat + 1) :=
    le_maybe_resize_n (by omega) (by omega)
  have hcond : ¬ (w.events = w.pevents ||| m) := by
    rw [hev]
    intro h
    exact hpne h.symm
  unfold uv__io_start
  simp only
  rw [if_neg hcond]
  by_cases hq : w.inWatcherQueue <;> by_cases ht : l.watcherInTable <;>
    simp only [hq, ht, if_true, if_false, ite_true, ite_false] <;>
    refine ⟨⟨⟨?_, ?_⟩, ?_, ?_, ?_, ?_⟩, ?_⟩ <;>
    simp only [hev] <;>
    first
      | exact hnw
      | exact hsub'
      | exact hfd0
      | exact hfd1
      | (constructor
         · intro h; exact absurd h hpne
         · intro h; simp at h)
      | rfl

theorem uv__io_stop_rep {l : WatcherLoop} {w : IoWatcher} {m : Nat}
    (hrep : WatcherRep (l, w)) (_hm : m ≠ 0 ∧ m &&& PERMITTED_EVENTS = m) :
    WatcherRep (uv__io_stop l w m) := by
  obtain ⟨⟨⟨hinv1, hinv2⟩, hev, hsub, hfd0, hfd1⟩, hnw⟩ := hrep
  simp only at hinv1 hinv2 hev hsub hfd0 hfd1 hnw
  have hne : ¬ w.fd = -1 := by omega
  have hmod : w.fd % (4294967296 : Int) = w.fd := by omega
  have hguard : ¬ l.nwatchers ≤ ((w.fd % (4294967296 : Int)).toNat) := by
    rw [hmod]
    omega
  have hsubz : (w.pevents &&& (U32MASK ^^^ m)) &&& PERMITTED_EVENTS =
      w.pevents &&& (U32MASK ^^^ m) := land_subset_left hsub
  unfold uv__io_stop
  rw [if_neg hne, if_neg hguard]
  simp only
  by_cases hz : w.pevents &&& (U32MASK ^^^ m) = 0
  · rw [if_pos hz]
    by_cases ht : l.watcherInTable = true
    · simp only [ht, if_true, ite_true]
      exact ⟨⟨⟨by simp [hz], by simp [hz]⟩, rfl, by simp [hz], hfd0, hfd1⟩, hnw⟩
    · have ht' : l.watcherInTable = false := by simpa using ht
      simp only [ht']
      rw [if_neg Bool.false_ne_true]
      refine ⟨⟨⟨?_, ?_⟩, hev, hsubz, hfd0, hfd1⟩, hnw⟩
      · simp [hz, ht']
      · simp [hz, hev]
  · rw [if_neg hz]
    have hpne : w.pevents ≠ 0 := by
      intro h
      rw [h] at hz
      simp at hz
    have ht : l.watcherInTable = true := by
      by_contra h
      exact hpne (hinv1.mpr (by simpa using h))
    by_cases hq : w.inWatcherQueue = true
    · simp only [hq, if_true, ite_true]
      refine ⟨⟨⟨?_, ?_⟩, hev, hsubz, hfd0, hfd1⟩, hnw⟩
      · simp [ht, hz]
      · simp [hev, hz]
    · have hq' : w.inWatcherQueue = false := by simpa using hq
      simp only [hq']
      rw [if_neg Bool.false_ne_true]
      refine ⟨⟨⟨?_, ?_⟩, hev, hsubz, hfd0, hfd1⟩, hnw⟩
      · simp [ht, hz]
      · simp [hev, hz]

theorem applyIoOps_rep (ops : List IoOp) :
    ∀ s : WatcherLoop × IoWatcher, (∀ op ∈ ops, ValidIoOp op) →
    WatcherRep s → WatcherRep (applyIoOps s ops) := by
  induction ops with
  | nil => intro s _ h; exact h
  | cons op ops ih =>
    intro s hops h
    rw [applyIoOps, List.foldl_cons]
    have hstep : WatcherRep (applyIoOp s op) := by
      cases op with
      | start m =>
        exact uv__io_start_rep h.1 (hops (IoOp.start m) (List.mem_cons_self _ _))
      | stop m =>
        exact uv__io_stop_rep h (hops (IoOp.stop m) (List.mem_cons_self _ _))
    exact ih (applyIoOp s op) (fun o ho => hops o (by simp [ho])) hstep

/-- C5: on a watcher started at least once (a start from the freshly
initialised state followed by any sequence of permitted start and stop
calls), after each call both biconditionals hold: the desired mask is zero
exactly when the table slot of the fd is empty, and the desired mask equals
the registered mask exactly when the watcher is not in the watcher queue. -/
theorem io_watcher_invariant (l : WatcherLoop) (w : IoWatcher) (m : Nat)
    (ops : List IoOp) (hidle : IdleWatcher (l, w)) (hfd0 : 0 ≤ w.fd)
    (hfd1 : w.fd.toNat + 1 < 2 ^ 31) (hm : ValidIoOp (IoOp.start m))
    (hops : ∀ op ∈ ops, ValidIoOp op) :
    WatcherInv (applyIoOps (uv__io_start l w m) ops) := by
  obtain ⟨h1, h2, h3, _, h5⟩ := hidle
  simp only at h1 h2 h3 h5
  have hpre : WatcherPre (l, w) := by
    refine ⟨⟨?_, ?_⟩, h2, ?_, hfd0, hfd1⟩
    · simp [h1, h5]
    · simp [h1, h2, h3]
    · simp [h1]
  have hrep := uv__io_start_rep hpre hm
  exact (applyIoOps_rep ops (uv__io_start l w m) hops hrep).1.1

/-- C5 witness: a watcher on fd 0 started with POLLIN and stopped with POLLIN
satisfies both biconditionals. -/
theorem io_watcher_invariant_witness :
    WatcherInv (applyIoOps (uv__io_start ⟨0, false, 0⟩ ⟨0, 0, 0, false, false⟩ 1)
      [IoOp.stop 1]) :=
  io_watcher_invariant ⟨0, false, 0⟩ ⟨0, 0, 0, false, false⟩ 1 [IoOp.stop 1]
    (by refine ⟨rfl, rfl, rfl, rfl, rfl⟩) (by decide) (by decide)
    (by exact ⟨by decide, by decide⟩)
    (by intro op hop
        rcases List.mem_singleton.mp hop with rfl
        exact ⟨by decide, by decide⟩)

/-- C6: starting an idle watcher with a permitted non-empty mask M and then
stopping it with M restores the idle state: desired and registered masks are
zero, the watcher is in neither the watcher queue nor the pending queue and
the table slot of its fd is empty. -/
theorem io_start_stop_roundtrip (l : WatcherLoop) (w : IoWatcher) (M : Nat)
    (hM : M ≠ 0 ∧ M &&& PERMITTED_EVENTS = M) (hidle : IdleWatcher (l, w))
    (hfd0 : 0 ≤ w.fd) (hfd1 : w.fd.toNat + 1 < 2 ^ 31) :
    IdleWatcher (applyIoOps (l, w) [IoOp.start M, IoOp.stop M]) := by
  obtain ⟨h1, h2, h3, h4, h5⟩ := hidle
  simp only at h1 h2 h3 h4 h5
  have hstart : uv__io_start l w M =
      ({ l with
          nwatchers := maybe_resize_n l.nwatchers (w.fd.toNat + 1)
          watcherInTable := true
          nfds := l.nfds + 1 },
       { w with pevents := M, inWatcherQueue := true }) := by
    unfold uv__io_start
    simp only [h1, h2, h3, h5, Nat.zero_or]
    rw [if_neg (fun h => hM.1 h.symm)]
    simp
  have hnw : w.fd.toNat + 1 ≤ maybe_resize_n l.nwatchers (w.fd.toNat + 1) :=
    le_maybe_resize_n (by omega) (by omega)
  have hstop : uv__io_stop
      { l with
        nwatchers := maybe_resize_n l.nwatchers (w.fd.toNat + 1)
        watcherInTable := true
        nfds := l.nfds + 1 }
      { w with pevents := M, inWatcherQueue := true } M =
      ({ l with
          nwatchers := maybe_resize_n l.nwatchers (w.fd.toNat + 1)
          watcherInTable := false
          nfds := l.nfds + 1 - 1 },
       { w with pevents := 0, events := 0, inWatcherQueue := false }) := by
    have hne : ¬ w.fd = -1 := by omega
    have hmod : w.fd % (4294967296 : Int) = w.fd := by omega
    have hzz := permitted_land_complement_eq_zero hM.2
    simp only [uv__io_stop]
    rw [if_neg hne]
    rw [if_neg (by rw [hmod]; omega)]
    simp only [hzz]
    simp
  show IdleWatcher (uv__io_stop (uv__io_start l w M).1 (uv__io_start l w M).2 M)
  rw [hstart]
  simp only
  rw [hstop]
  exact ⟨rfl, rfl, rfl, by simpa using h4, rfl⟩

/-- C6 witness: fd 2, mask POLLIN|POLLOUT. -/
theorem io_start_stop_roundtrip_witness :
    IdleWatcher (applyIoOps (⟨0, false, 0⟩, ⟨2, 0, 0, false, false⟩)
      [IoOp.start 5, IoOp.stop 5]) :=
  io_start_stop_roundtrip ⟨0, false, 0⟩ ⟨2, 0, 0, false, false⟩ 5
    (by exact ⟨by decide, by decide⟩) (by refine ⟨rfl, rfl, rfl, rfl, rfl⟩)
    (by decide) (by decide)

/-! ## C7 -/

/-- C7: when `len` exceeds the table size, `maybe_resize` grows the table to
`next_power_of_two(len + 2) - 2` slots, where `next_power_of_two` is the
least power of two greater than or equal to its argument (on the 32-bit
domain of the claimed examples), every newly added slot is null, and the
contents of the two trailing slots are preserved across the resize; the five
claimed sample values of `next_power_of_two` hold. -/
theorem maybe_resize_spec (t : WatcherTable) (len : Nat)
    (hwf : t.slots.length = t.nwatchers + 2)
    (hgrow : t.nwatchers < len) (hbound : len + 2 ≤ 2 ^ 31) :
    (maybe_resize t len).nwatchers = least_pow2_ge (len + 2) - 2 ∧
    len + 2 ≤ least_pow2_ge (len + 2) ∧
    (∀ k, len + 2 ≤ 2 ^ k → least_pow2_ge (len + 2) ≤ 2 ^ k) ∧
    (∃ k, least_pow2_ge (len + 2) = 2 ^ k) ∧
    (∀ i, t.nwatchers ≤ i → i < (maybe_resize t len).nwatchers →
      (maybe_resize t len).slots.getD i (some 0) = none) ∧
    (maybe_resize t len).slots.getD (maybe_resize t len).nwatchers (some 0) =
      t.slots.getD t.nwatchers (some 0) ∧
    (maybe_resize t len).slots.getD
        ((maybe_resize t len).nwatchers + 1) (some 0) =
      t.slots.getD (t.nwatchers + 1) (some 0) ∧
    next_power_of_two 1 = 1 ∧ next_power_of_two 2 = 2 ∧
    next_power_of_two 3 = 4 ∧ next_power_of_two 513 = 1024 ∧
    next_power_of_two (2 ^ 31) = 2 ^ 31 := by
  have hnotle : ¬ len ≤ t.nwatchers := by omega
  have hr : maybe_resize t len =
      { nwatchers := maybe_resize_len len
        slots := t.slots.take t.nwatchers ++
          List.replicate (maybe_resize_len len - t.nwatchers) none ++
          [t.slots.getD t.nwatchers none, t.slots.getD (t.nwatchers + 1) none] } := by
    unfold maybe_resize
    rw [if_neg hnotle]
  have hlen_eq : maybe_resize_len len = least_pow2_ge (len + 2) - 2 :=
    maybe_resize_len_eq (by omega) hbound
  have hnwlen : len ≤ maybe_resize_len len :=
    le_maybe_resize_len (by omega) (by omega)
  have hnww : (maybe_resize t len).nwatchers = maybe_resize_len len := by
    rw [hr]
  have hslots : (maybe_resize t len).slots =
      t.slots.take t.nwatchers ++
        List.replicate (maybe_resize_len len - t.nwatchers) none ++
        [t.slots.getD t.nwatchers none, t.slots.getD (t.nwatchers + 1) none] := by
    rw [hr]
  have hA : (t.slots.take t.nwatchers).length = t.nwatchers := by
    rw [List.length_take]
    omega
  have hABlen : (t.slots.take t.nwatchers ++
      List.replicate (maybe_resize_len len - t.nwatchers)
        (none : Option Nat)).length = maybe_resize_len len := by
    rw [List.length_append, hA, List.length_replicate]
    omega
  refine ⟨by rw [hnww, hlen_eq], least_pow2_ge_le, ?_, least_pow2_ge_is_pow2 _,
    ?_, ?_, ?_, by decide, by decide, by decide, by decide, by decide⟩
  · intro k hk
    exact least_pow2_ge_min (by omega) hk
  · intro i h1 h2
    rw [hnww] at h2
    rw [hslots, List.getD_eq_getElem?_getD]
    rw [List.getElem?_append_left (by rw [hABlen]; omega)]
    rw [List.getElem?_append_right (by rw [hA]; omega)]
    rw [hA]
    rw [List.getElem?_replicate_of_lt (by omega)]
    rfl
  · rw [hnww, hslots, List.getD_eq_getElem?_getD]
    rw [List.getElem?_append_right (by rw [hABlen])]
    rw [hABlen, Nat.sub_self]
    have : [t.slots.getD t.nwatchers (none : Option Nat),
        t.slots.getD (t.nwatchers + 1) none][0]? =
        some (t.slots.getD t.nwatchers none) := rfl
    rw [this]
    exact (getD_irrel (by omega) _ _).symm
  · rw [hnww, hslots, List.getD_eq_getElem?_getD]
    rw [List.getElem?_append_right (by rw [hABlen]; omega)]
    rw [hABlen]
    rw [show maybe_resize_len len + 1 - maybe_resize_len len = 1 by omega]
    have : [t.slots.getD t.nwatchers (none : Option Nat),
        t.slots.getD (t.nwatchers + 1) none][1]? =
        some (t.slots.getD (t.nwatchers + 1) none) := rfl
    rw [this]
    exact (getD_irrel (by omega) _ _).symm

/-- C7 witness: growing a one-slot table (with trailing in-flight slots
holding 7 and 9) to cover fd 1 yields two slots, nulls the new slot and
keeps the trailing pair. -/
theorem maybe_resize_spec_witness :
    (maybe_resize ⟨1, [some 5, some 7, some 9]⟩ 2).nwatchers =
      least_pow2_ge 4 - 2 ∧
    (maybe_resize ⟨1, [some 5, some 7, some 9]⟩ 2).slots.getD 1 (some 0) =
      none ∧
    (maybe_resize ⟨1, [some 5, some 7, some 9]⟩ 2).slots.getD
      (maybe_resize ⟨1, [some 5, some 7, some 9]⟩ 2).nwatchers (some 0) =
      some 7 := by
  have h := maybe_resize_spec ⟨1, [some 5, some 7, some 9]⟩ 2
    (by decide) (by decide) (by norm_num)
  refine ⟨h.1, ?_, ?_⟩
  · exact h.2.2.2.2.1 1 (by decide) (by decide)
  · rw [h.2.2.2.2.2.1]
    rfl

/-! ## C8 -/

/-- C8: whatever the run mode, the phase behaviour and the stop flag value at
entry, whenever `uv_run` returns, the stop flag of the resulting loop state
is 0. -/
theorem uv_run_clears_stop_flag (ph : LoopPhases) (mode : RunMode)
    (fuel : Nat) (s : RunState) (r : Bool) (s2 : RunState)
    (h : uv_run ph mode fuel s = some (r, s2)) : s2.stop_flag = 0 := by
  unfold uv_run at h
  rcases hl : uv_run_loop ph mode fuel (ph.alive s)
      (if ph.alive s = false then ph.updateTime s else s) with _ | ⟨pr, ps⟩
  · simp only [hl] at h
    exact absurd h (by simp)
  · simp only [hl] at h
    have h2 : (if ps.stop_flag ≠ 0 then { ps with stop_flag := 0 } else ps) = s2 :=
      congrArg Prod.snd (Option.some_inj.mp h)
    rw [← h2]
    split_ifs with hz
    · rfl
    · omega

/-- C8 witness: a dead loop entered with `stop_flag = 5` returns with the
flag cleared. -/
theorem uv_run_clears_stop_flag_witness :
    ∃ p : Bool × RunState,
      uv_run ⟨id, id, fun s => (false, s), id, id, fun _ => 0, fun _ s => s,
        id, id, fun _ => false⟩ .default 1 ⟨5, 0⟩ = some p ∧
      p.2.stop_flag = 0 := by
  refine ⟨(false, ⟨0, 0⟩), rfl, ?_⟩
  exact uv_run_clears_stop_flag
    ⟨id, id, fun s => (false, s), id, id, fun _ => 0, fun _ s => s,
      id, id, fun _ => false⟩ .default 1 ⟨5, 0⟩ false ⟨0, 0⟩ rfl

/-! ## C9 -/

/-- C9: when the loop watches no fds (`nfds = 0`), `uv__io_poll` returns at
once for every timeout value: the loop state is unchanged (in particular the
loop time), no wait outcome is consumed from the backend, and no callback is
invoked. -/
theorem io_poll_no_fds_frame (longIs32 : Bool) (s : PollState) (timeout : Int)
    (oracle : List WaitOutcome) (h : s.nfds = 0) :
    uv__io_poll longIs32 s timeout oracle = some (s, oracle, []) := by
  unfold uv__io_poll
  rw [if_pos h]

/-- C9 witness: a concrete empty loop is returned untouched for a blocking
timeout with a non-empty oracle. -/
theorem io_poll_no_fds_frame_witness :
    uv__io_poll false ⟨0, [], fun _ => none, fun _ => none, 55, 3⟩ (-1)
        [WaitOutcome.timedOut 4] =
      some (⟨0, [], fun _ => none, fun _ => none, 55, 3⟩,
        [WaitOutcome.timedOut 4], []) :=
  io_poll_no_fds_frame false _ (-1) _ rfl

/-! ## C10 -/

/-- C10: `uv__io_stop` on a watcher whose fd is -1, or whose (unsigned) fd
does not fit in the watcher table (a watcher never started on this loop),
returns without modifying the watcher or the loop. -/
theorem io_stop_unstarted_frame (l : WatcherLoop) (w : IoWatcher) (m : Nat)
    (_hm : m ≠ 0 ∧ m &&& PERMITTED_EVENTS = m)
    (h : w.fd = -1 ∨ (0 ≤ w.fd ∧ w.fd < 2 ^ 31 ∧ l.nwatchers ≤ w.fd.toNat)) :
    uv__io_stop l w m = (l, w) := by
  unfold uv__io_stop
  rcases h with h | ⟨h0, h1, h2⟩
  · rw [if_pos h]
  · have hne : ¬ w.fd = -1 := by omega
    rw [if_neg hne]
    have hmod : w.fd % (4294967296 : Int) = w.fd := by omega
    rw [if_pos (by rw [hmod]; exact h2)]

/-- C10 witness: stopping POLLIN on a watcher with fd 5 over a loop whose
table is empty leaves both untouched. -/
theorem io_stop_unstarted_frame_witness :
    uv__io_stop ⟨0, false, 0⟩ ⟨5, 0, 0, false, false⟩ 1 =
      (⟨0, false, 0⟩, ⟨5, 0, 0, false, false⟩) :=
  io_stop_unstarted_frame ⟨0, false, 0⟩ ⟨5, 0, 0, false, false⟩ 1
    (by decide) (Or.inr (by decide))

end LibuvCore
